import Mathlib

/-!
Verification of the audio playback transport in `src/components/AudioPlayer.tsx`
(repository `nanayuki777/toefl`), plus the decode pipeline contract.

The component keeps React state `isPlaying`, `progress`, `duration`,
`currentTime`, `isReady` and mutable refs `audioContextRef`, `sourceNodeRef`,
`audioBufferRef`, `startTimeRef`, `pauseTimeRef`.  We embed that mutable state
as the record `Session` below; the audio clock (`ctx.currentTime`) is passed
explicitly to each operation as a rational `now`.  Times are modelled as exact
rationals: the source manipulates IEEE doubles, but every claim under study is
about the exact elapsed-time bookkeeping, not float rounding.
-/

namespace AudioPlayer

/-- The mutable state of one `AudioPlayer` component instance.

* `isPlaying`, `isReady`, `progress`, `duration`, `currentTime` are the React
  state hooks of the component (lines 12-16 of `AudioPlayer.tsx`).
* `hasContext` models `audioContextRef.current !== null`, `hasBuffer` models
  `audioBufferRef.current !== null`, `sourceNode` models
  `sourceNodeRef.current !== null`.
* `startTime` is `startTimeRef.current`, `pauseTime` is `pauseTimeRef.current`.
* `nodeOffset` records the offset handed to `source.start(0, offset)` for the
  most recently created source node.
* `endedCount` counts invocations of the caller-supplied `onEnded` callback. -/
structure Session where
  isPlaying : Bool
  isReady : Bool
  progress : ℚ
  duration : ℚ
  currentTime : ℚ
  hasContext : Bool
  hasBuffer : Bool
  startTime : ℚ
  pauseTime : ℚ
  sourceNode : Bool
  nodeOffset : ℚ
  endedCount : ℕ
  deriving Repr, DecidableEq

/-- `stopAudio` (lines 58-68): stops and disconnects the active node, swallowing
any exception from stopping an already-stopped node, and clears the ref.  In
the embedding the net observable effect is clearing the node flag; the
try/catch means it is total (never an error). -/
def stopAudio (s : Session) : Session :=
  { s with sourceNode := false }

/-- `updateProgress` (lines 70-88): one tick of the progress-poll loop at audio
clock `now`.  Guarded by `audioContextRef.current` and `isPlaying`; computes
`elapsed = ctx.currentTime - startTimeRef.current + pauseTimeRef.current`.
On `elapsed >= duration` it stops playback, clamps the readouts, resets
`pauseTimeRef`, stops the node and fires `onEnded`; otherwise it publishes
`elapsed` and the derived percentage. -/
def updateProgress (s : Session) (now : ℚ) : Session :=
  if !s.hasContext || !s.isPlaying then s
  else
    let elapsed := now - s.startTime + s.pauseTime
    if s.duration ≤ elapsed then
      { (stopAudio s) with
          isPlaying := false
          progress := 100
          currentTime := s.duration
          pauseTime := 0
          endedCount := s.endedCount + 1 }
    else
      { s with currentTime := elapsed, progress := elapsed / s.duration * 100 }

/-- `togglePlay` (lines 98-129) at audio clock `now`.  Returns immediately if
either the context or the decoded buffer is missing.  When playing it pauses:
stop the node and accumulate `ctx.currentTime - startTimeRef.current` into
`pauseTimeRef`.  Otherwise it plays: create a node on the shared buffer, rewind
the bookkeeping first if `currentTime >= duration`, record
`startTimeRef = ctx.currentTime` and start the node at offset
`pauseTimeRef.current`. -/
def togglePlay (s : Session) (now : ℚ) : Session :=
  if !s.hasContext || !s.hasBuffer then s
  else if s.isPlaying then
    { (stopAudio s) with
        pauseTime := s.pauseTime + (now - s.startTime)
        isPlaying := false }
  else
    let s1 := if s.duration ≤ s.currentTime then
        { s with pauseTime := 0, currentTime := 0, progress := 0 }
      else s
    { s1 with
        startTime := now
        nodeOffset := s1.pauseTime
        sourceNode := true
        isPlaying := true }

/-- `handleRestart` (lines 131-137): stop the node, leave `Playing`, zero the
accumulated offset, current time and progress.  Unconditional in the source. -/
def handleRestart (s : Session) : Session :=
  { (stopAudio s) with
      isPlaying := false
      pauseTime := 0
      currentTime := 0
      progress := 0 }

/-- The spec's `pause()` operation as realised by the component: the transport
exposes a single toggle button that reads `Pause` exactly when `isPlaying`, so
pausing is `togglePlay` invoked from the `Playing` state; from any other state
the pause control is not offered and the operation is silently a no-op, as the
spec's `InvalidOperation` policy prescribes. -/
def pause (s : Session) (now : ℚ) : Session :=
  if s.isPlaying then togglePlay s now else s

/-- The session state right after a successful `initAudio` (lines 27-44) for a
buffer of duration `d`: context and gain node created, buffer decoded and
stored, `duration` published, `isReady` set; everything else at its React
initial value. -/
def mkReady (d : ℚ) : Session :=
  { isPlaying := false
    isReady := true
    progress := 0
    duration := d
    currentTime := 0
    hasContext := true
    hasBuffer := true
    startTime := 0
    pauseTime := 0
    sourceNode := false
    nodeOffset := 0
    endedCount := 0 }

/-- The session state after `initAudio` caught a decode failure (lines 41-43):
the context was already created, but the buffer ref was never set, `setDuration`
and `setIsReady(true)` were never reached, and the error was only logged. -/
def mkFailed : Session :=
  { isPlaying := false
    isReady := false
    progress := 0
    duration := 0
    currentTime := 0
    hasContext := true
    hasBuffer := false
    startTime := 0
    pauseTime := 0
    sourceNode := false
    nodeOffset := 0
    endedCount := 0 }

/-- The component body (lines 145-151) renders only the loading indicator, and
none of the transport controls, while `isReady` is false. -/
def rendersLoading (s : Session) : Bool :=
  !s.isReady

/-- The operations that can mutate a ready session: the play/pause toggle, the
restart button, and one tick of the progress poll. -/
inductive Ev
  | toggle
  | restart
  | poll
  deriving Repr, DecidableEq

/-- One step of the session under event `e` at audio clock `t`. -/
def step (s : Session) (e : Ev) (t : ℚ) : Session :=
  match e with
  | Ev.toggle => togglePlay s t
  | Ev.restart => handleRestart s
  | Ev.poll => updateProgress s t

/-- Run a timestamped event trace. -/
def runEvents : Session → List (Ev × ℚ) → Session
  | s, [] => s
  | s, (e, t) :: evs => runEvents (step s e t) evs

/-- The audio clock is monotone: a trace is chronological after `t0` when its
timestamps are non-decreasing and no earlier than `t0`. -/
def Chrono : ℚ → List (Ev × ℚ) → Prop
  | _, [] => True
  | t0, (_, t) :: evs => t0 ≤ t ∧ Chrono t evs

/-- The session invariant at audio-clock lower bound `t`: readouts are within
range and consistent, playing states are ready with a sane clock anchor, and
ready sessions carry a positive duration (the decode pipeline rejects empty
payloads, so a decoded buffer has at least one frame). -/
def Inv (s : Session) (t : ℚ) : Prop :=
  0 ≤ s.currentTime ∧
  s.currentTime ≤ s.duration ∧
  (s.isPlaying = true → s.isReady = true) ∧
  s.hasBuffer = s.isReady ∧
  (s.isReady = true → 0 < s.duration) ∧
  0 ≤ s.pauseTime ∧
  (s.isPlaying = true → s.startTime ≤ t) ∧
  s.progress = s.currentTime / s.duration * 100

/-- The sequence of `currentTime` values published by successive progress polls
at the given audio-clock instants. -/
def pollTrace : Session → List ℚ → List ℚ
  | _, [] => []
  | s, t :: ts => (updateProgress s t).currentTime :: pollTrace (updateProgress s t) ts

/-- Reinterpret an unsigned 16-bit value as a little-endian signed 16-bit
sample (two's complement). -/
def toSigned16 (v : ℕ) : ℤ :=
  if v < 32768 then (v : ℤ) else (v : ℤ) - 65536

/-- Modelled from the spec: the sample extraction of `decodeAudioData`
(`src/utils/audioUtils.ts`, not among the provided sources; spec section 4.1):
consecutive byte pairs are read as little-endian signed 16-bit PCM samples and
normalised to [-1.0, 1.0] by dividing by 32768. -/
def pcmSamples : List ℕ → List ℚ
  | lo :: hi :: rest => ((toSigned16 (lo + 256 * hi) : ℚ) / 32768) :: pcmSamples rest
  | _ => []

/-- The decoded buffer: a fixed sequence of normalised mono sample frames. -/
structure DecodedAudioBuffer where
  samples : List ℚ
  deriving Repr, DecidableEq

/-- The fixed sample rate of the pipeline: 24000 Hz mono. -/
def sampleRate : ℚ := 24000

/-- Duration of a decoded buffer: frame count over the sample rate. -/
def DecodedAudioBuffer.duration (b : DecodedAudioBuffer) : ℚ :=
  (b.samples.length : ℚ) / sampleRate

/-- Modelled from the spec: `decodeAudioData` (`src/utils/audioUtils.ts`, not
among the provided sources; spec sections 4.1 and 8): base64-decoded bytes are
framed as little-endian 16-bit mono PCM; an empty or odd-length payload is a
`DecodeError`, reported here as `none`. -/
def decodeAudioData (bytes : List ℕ) : Option DecodedAudioBuffer :=
  if bytes.length = 0 ∨ bytes.length % 2 = 1 then none
  else some ⟨pcmSamples bytes⟩

/-- `initAudio` (lines 27-44): creates the context, then decodes; on success it
publishes the buffer duration and sets `isReady`; a decode failure is caught
at this boundary and only logged, leaving the session permanently not ready. -/
def initAudio (bytes : List ℕ) : Session :=
  match decodeAudioData bytes with
  | some buf => mkReady buf.duration
  | none => mkFailed

theorem inv_mono (s : Session) (t0 t : ℚ) (h : Inv s t0) (ht : t0 ≤ t) : Inv s t := by
  obtain ⟨h1, h2, h3, h4, h5, h6, h7, h8⟩ := h
  exact ⟨h1, h2, h3, h4, h5, h6, fun hp => le_trans (h7 hp) ht, h8⟩

theorem inv_mkReady (d : ℚ) (hd : 0 < d) (t : ℚ) : Inv (mkReady d) t := by
  refine ⟨le_refl 0, le_of_lt hd, fun _ => rfl, rfl, fun _ => hd, le_refl 0,
    fun hp => by simp [mkReady] at hp, ?_⟩
  simp [mkReady]

theorem inv_mkFailed (t : ℚ) : Inv mkFailed t := by
  refine ⟨le_refl 0, le_refl 0, fun hp => by simp [mkFailed] at hp, rfl,
    fun hr => by simp [mkFailed] at hr, le_refl 0,
    fun hp => by simp [mkFailed] at hp, ?_⟩
  simp [mkFailed]

theorem updateProgress_skip (s : Session) (now : ℚ)
    (h : s.hasContext = false ∨ s.isPlaying = false) :
    updateProgress s now = s := by
  rcases h with h | h <;> simp [updateProgress, h]

theorem updateProgress_ended (s : Session) (now : ℚ)
    (hC : s.hasContext = true) (hP : s.isPlaying = true)
    (he : s.duration ≤ now - s.startTime + s.pauseTime) :
    updateProgress s now = { s with
      isPlaying := false
      progress := 100
      currentTime := s.duration
      pauseTime := 0
      sourceNode := false
      endedCount := s.endedCount + 1 } := by
  simp [updateProgress, stopAudio, hC, hP, he]

theorem updateProgress_running (s : Session) (now : ℚ)
    (hC : s.hasContext = true) (hP : s.isPlaying = true)
    (he : ¬ s.duration ≤ now - s.startTime + s.pauseTime) :
    updateProgress s now = { s with
      currentTime := now - s.startTime + s.pauseTime
      progress := (now - s.startTime + s.pauseTime) / s.duration * 100 } := by
  simp [updateProgress, hC, hP, he]

theorem togglePlay_skip (s : Session) (now : ℚ)
    (h : s.hasContext = false ∨ s.hasBuffer = false) :
    togglePlay s now = s := by
  rcases h with h | h <;> simp [togglePlay, h]

theorem togglePlay_pause (s : Session) (now : ℚ)
    (hC : s.hasContext = true) (hB : s.hasBuffer = true) (hP : s.isPlaying = true) :
    togglePlay s now = { s with
      sourceNode := false
      pauseTime := s.pauseTime + (now - s.startTime)
      isPlaying := false } := by
  simp [togglePlay, stopAudio, hC, hB, hP]

theorem togglePlay_play (s : Session) (now : ℚ)
    (hC : s.hasContext = true) (hB : s.hasBuffer = true) (hP : s.isPlaying = false)
    (hend : ¬ s.duration ≤ s.currentTime) :
    togglePlay s now = { s with
      startTime := now
      nodeOffset := s.pauseTime
      sourceNode := true
      isPlaying := true } := by
  simp [togglePlay, hC, hB, hP, hend]

theorem togglePlay_replay (s : Session) (now : ℚ)
    (hC : s.hasContext = true) (hB : s.hasBuffer = true) (hP : s.isPlaying = false)
    (hend : s.duration ≤ s.currentTime) :
    togglePlay s now = { s with
      pauseTime := 0
      currentTime := 0
      progress := 0
      startTime := now
      nodeOffset := 0
      sourceNode := true
      isPlaying := true } := by
  simp [togglePlay, hC, hB, hP, hend]

theorem inv_updateProgress (s : Session) (t0 t : ℚ) (h : Inv s t0) (ht : t0 ≤ t) :
    Inv (updateProgress s t) t := by
  obtain ⟨h1, h2, h3, h4, h5, h6, h7, h8⟩ := h
  cases hC : s.hasContext with
  | false =>
    rw [updateProgress_skip s t (Or.inl hC)]
    exact inv_mono s t0 t ⟨h1, h2, h3, h4, h5, h6, h7, h8⟩ ht
  | true =>
    cases hP : s.isPlaying with
    | false =>
      rw [updateProgress_skip s t (Or.inr hP)]
      exact inv_mono s t0 t ⟨h1, h2, h3, h4, h5, h6, h7, h8⟩ ht
    | true =>
      have hd : 0 < s.duration := h5 (h3 hP)
      by_cases he : s.duration ≤ t - s.startTime + s.pauseTime
      · rw [updateProgress_ended s t hC hP he]
        refine ⟨le_of_lt hd, le_refl _, fun hp => absurd hp (by simp), h4, h5, le_refl 0,
          fun hp => absurd hp (by simp), ?_⟩
        show (100 : ℚ) = s.duration / s.duration * 100
        rw [div_self (ne_of_gt hd), one_mul]
      · have hst : s.startTime ≤ t := le_trans (h7 hP) ht
        rw [updateProgress_running s t hC hP he]
        refine ⟨by simp; linarith, by simp; linarith, fun _ => h3 hP, h4, h5, h6,
          fun _ => hst, rfl⟩

theorem inv_togglePlay (s : Session) (t0 t : ℚ) (h : Inv s t0) (ht : t0 ≤ t) :
    Inv (togglePlay s t) t := by
  obtain ⟨h1, h2, h3, h4, h5, h6, h7, h8⟩ := h
  cases hC : s.hasContext with
  | false =>
    rw [togglePlay_skip s t (Or.inl hC)]
    exact inv_mono s t0 t ⟨h1, h2, h3, h4, h5, h6, h7, h8⟩ ht
  | true =>
    cases hB : s.hasBuffer with
    | false =>
      rw [togglePlay_skip s t (Or.inr hB)]
      exact inv_mono s t0 t ⟨h1, h2, h3, h4, h5, h6, h7, h8⟩ ht
    | true =>
      have hr : s.isReady = true := h4 ▸ hB
      have hd : 0 < s.duration := h5 hr
      cases hP : s.isPlaying with
      | true =>
        have hst : s.startTime ≤ t := le_trans (h7 hP) ht
        rw [togglePlay_pause s t hC hB hP]
        refine ⟨h1, h2, fun hp => absurd hp (by simp), h4, h5, ?_,
          fun hp => absurd hp (by simp), h8⟩
        show (0 : ℚ) ≤ s.pauseTime + (t - s.startTime)
        linarith
      | false =>
        by_cases hend : s.duration ≤ s.currentTime
        · rw [togglePlay_replay s t hC hB hP hend]
          exact ⟨le_refl 0, le_of_lt hd, fun _ => hr, h4, h5, le_refl 0,
            fun _ => le_refl t, by simp⟩
        · rw [togglePlay_play s t hC hB hP hend]
          exact ⟨h1, h2, fun _ => hr, h4, h5, h6, fun _ => le_refl t, h8⟩

theorem inv_handleRestart (s : Session) (t0 t : ℚ) (h : Inv s t0) :
    Inv (handleRestart s) t := by
  obtain ⟨h1, h2, h3, h4, h5, h6, h7, h8⟩ := h
  refine ⟨le_refl 0, ?_, fun hp => by simp [handleRestart, stopAudio] at hp, h4, h5,
    le_refl 0, fun hp => by simp [handleRestart, stopAudio] at hp, by simp [handleRestart, stopAudio]⟩
  show (0 : ℚ) ≤ s.duration
  exact le_trans h1 h2

theorem inv_step (s : Session) (e : Ev) (t0 t : ℚ) (h : Inv s t0) (ht : t0 ≤ t) :
    Inv (step s e t) t := by
  cases e with
  | toggle => exact inv_togglePlay s t0 t h ht
  | restart => exact inv_handleRestart s t0 t h
  | poll => exact inv_updateProgress s t0 t h ht

theorem inv_run (evs : List (Ev × ℚ)) (s : Session) (t0 : ℚ)
    (h : Inv s t0) (hch : Chrono t0 evs) :
    ∃ t1, Inv (runEvents s evs) t1 := by
  induction evs generalizing s t0 with
  | nil => exact ⟨t0, h⟩
  | cons et evs ih =>
    obtain ⟨ht, hch'⟩ := hch
    exact ih (step s et.1 et.2) et.2 (inv_step s et.1 t0 et.2 h ht) hch'

theorem togglePlay_endedCount (u : Session) (t2 : ℚ) :
    (togglePlay u t2).endedCount = u.endedCount := by
  cases hC : u.hasContext with
  | false => rw [togglePlay_skip u t2 (Or.inl hC)]
  | true =>
    cases hB : u.hasBuffer with
    | false => rw [togglePlay_skip u t2 (Or.inr hB)]
    | true =>
      cases hP : u.isPlaying with
      | true => rw [togglePlay_pause u t2 hC hB hP]
      | false =>
        by_cases hend : u.duration ≤ u.currentTime
        · rw [togglePlay_replay u t2 hC hB hP hend]
        · rw [togglePlay_play u t2 hC hB hP hend]

theorem handleRestart_endedCount (u : Session) :
    (handleRestart u).endedCount = u.endedCount := rfl

/-- Claim C1: when a progress poll of a playing session observes
`elapsed = now - startTime + pauseTime ≥ duration`, it clamps `currentTime` to
`duration`, sets progress to 100, resets the accumulated offset, stops the
node, leaves the playing state, and fires the completion callback exactly
once; further polls of the resulting state change nothing (in particular
they fire no second callback), and neither `togglePlay` (which contains the
pause operation) nor `handleRestart` ever fires the callback. -/
theorem C1_natural_end (s : Session) (t : ℚ)
    (hC : s.hasContext = true) (hP : s.isPlaying = true)
    (he : s.duration ≤ t - s.startTime + s.pauseTime) :
    (updateProgress s t).currentTime = s.duration ∧
    (updateProgress s t).progress = 100 ∧
    (updateProgress s t).pauseTime = 0 ∧
    (updateProgress s t).sourceNode = false ∧
    (updateProgress s t).isPlaying = false ∧
    (updateProgress s t).endedCount = s.endedCount + 1 ∧
    (∀ t2, updateProgress (updateProgress s t) t2 = updateProgress s t) ∧
    (∀ u : Session, ∀ t2, (togglePlay u t2).endedCount = u.endedCount) ∧
    (∀ u : Session, (handleRestart u).endedCount = u.endedCount) := by
  rw [updateProgress_ended s t hC hP he]
  refine ⟨rfl, rfl, rfl, rfl, rfl, rfl, fun t2 => ?_, togglePlay_endedCount,
    handleRestart_endedCount⟩
  exact updateProgress_skip _ t2 (Or.inr rfl)

theorem C1_natural_end_witness :
    (updateProgress (togglePlay (mkReady 1) 0) 2).currentTime
        = (togglePlay (mkReady 1) 0).duration ∧
    (updateProgress (togglePlay (mkReady 1) 0) 2).progress = 100 ∧
    (updateProgress (togglePlay (mkReady 1) 0) 2).pauseTime = 0 ∧
    (updateProgress (togglePlay (mkReady 1) 0) 2).sourceNode = false ∧
    (updateProgress (togglePlay (mkReady 1) 0) 2).isPlaying = false ∧
    (updateProgress (togglePlay (mkReady 1) 0) 2).endedCount
        = (togglePlay (mkReady 1) 0).endedCount + 1 ∧
    (∀ t2, updateProgress (updateProgress (togglePlay (mkReady 1) 0) 2) t2
        = updateProgress (togglePlay (mkReady 1) 0) 2) ∧
    (∀ u : Session, ∀ t2, (togglePlay u t2).endedCount = u.endedCount) ∧
    (∀ u : Session, (handleRestart u).endedCount = u.endedCount) :=
  C1_natural_end (togglePlay (mkReady 1) 0) 2
    (by simp [togglePlay, mkReady, stopAudio])
    (by simp [togglePlay, mkReady, stopAudio])
    (by simp [togglePlay, mkReady, stopAudio])

/-- Claim C3: pausing a playing session at clock `t1` adds `t1 - startTime` to
the accumulated offset; resuming at clock `t2` starts the new node at exactly
that accumulated offset and records `startTime = t2`.  Concretely, playing a
fresh session at `t0`, pausing 3 simulated seconds later, resuming at `tp` and
polling at `tq` (with `3 + (tq - tp)` still short of the duration) reports
`currentTime = 3 + (tq - tp)`. -/
theorem C3_pause_resume (s : Session) (t1 t2 : ℚ)
    (hC : s.hasContext = true) (hB : s.hasBuffer = true) (hP : s.isPlaying = true)
    (hct : ¬ s.duration ≤ s.currentTime) :
    (togglePlay s t1).pauseTime = s.pauseTime + (t1 - s.startTime) ∧
    (togglePlay s t1).isPlaying = false ∧
    (togglePlay (togglePlay s t1) t2).nodeOffset = (togglePlay s t1).pauseTime ∧
    (togglePlay (togglePlay s t1) t2).startTime = t2 ∧
    (togglePlay (togglePlay s t1) t2).isPlaying = true ∧
    (∀ d t0 tp tq : ℚ, 0 < d → 3 + (tq - tp) < d →
      (updateProgress
          (togglePlay (togglePlay (togglePlay (mkReady d) t0) (t0 + 3)) tp)
          tq).currentTime = 3 + (tq - tp)) := by
  have e1 := togglePlay_pause s t1 hC hB hP
  have e2 := togglePlay_play
    { s with
      sourceNode := false
      pauseTime := s.pauseTime + (t1 - s.startTime)
      isPlaying := false } t2 hC hB rfl hct
  refine ⟨by rw [e1], by rw [e1], ?_, ?_, ?_, ?_⟩
  · rw [e1, e2]
  · rw [e1, e2]
  · rw [e1, e2]
  · intro d t0 tp tq hd hlt
    have h0 : ¬ d ≤ (0 : ℚ) := by linarith
    have hq : ¬ d ≤ tq - tp + 3 := by linarith
    simp [togglePlay, updateProgress, stopAudio, mkReady, h0, hq]
    ring

theorem C3_pause_resume_witness :
    (togglePlay (togglePlay (mkReady 10) 0) 2).pauseTime
        = (togglePlay (mkReady 10) 0).pauseTime
            + (2 - (togglePlay (mkReady 10) 0).startTime) ∧
    (togglePlay (togglePlay (mkReady 10) 0) 2).isPlaying = false ∧
    (togglePlay (togglePlay (togglePlay (mkReady 10) 0) 2) 5).nodeOffset
        = (togglePlay (togglePlay (mkReady 10) 0) 2).pauseTime ∧
    (togglePlay (togglePlay (togglePlay (mkReady 10) 0) 2) 5).startTime = 5 ∧
    (togglePlay (togglePlay (togglePlay (mkReady 10) 0) 2) 5).isPlaying = true ∧
    (∀ d t0 tp tq : ℚ, 0 < d → 3 + (tq - tp) < d →
      (updateProgress
          (togglePlay (togglePlay (togglePlay (mkReady d) t0) (t0 + 3)) tp)
          tq).currentTime = 3 + (tq - tp)) :=
  C3_pause_resume (togglePlay (mkReady 10) 0) 2 5
    (by simp [togglePlay, mkReady, stopAudio])
    (by simp [togglePlay, mkReady, stopAudio])
    (by simp [togglePlay, mkReady, stopAudio])
    (by simp [togglePlay, mkReady, stopAudio])

/-- Claim C4: from a session that has reached natural end
(`currentTime ≥ duration`, stopped), the next `togglePlay` resets the
accumulated offset, `currentTime` and progress to 0, starts the new node at
offset 0 with `startTime = now`, and fires no completion callback; moreover
the ended state itself is inert under further progress polls, so playback
never auto-loops. -/
theorem C4_replay_rewinds (s : Session) (t : ℚ)
    (hC : s.hasContext = true) (hB : s.hasBuffer = true) (hP : s.isPlaying = false)
    (hend : s.duration ≤ s.currentTime) :
    (togglePlay s t).pauseTime = 0 ∧
    (togglePlay s t).nodeOffset = 0 ∧
    (togglePlay s t).currentTime = 0 ∧
    (togglePlay s t).progress = 0 ∧
    (togglePlay s t).startTime = t ∧
    (togglePlay s t).isPlaying = true ∧
    (togglePlay s t).endedCount = s.endedCount ∧
    (∀ t2, updateProgress s t2 = s) := by
  rw [togglePlay_replay s t hC hB hP hend]
  exact ⟨rfl, rfl, rfl, rfl, rfl, rfl, rfl,
    fun t2 => updateProgress_skip s t2 (Or.inr hP)⟩

theorem C4_replay_rewinds_witness :
    (togglePlay (updateProgress (togglePlay (mkReady 1) 0) 2) 5).pauseTime = 0 ∧
    (togglePlay (updateProgress (togglePlay (mkReady 1) 0) 2) 5).nodeOffset = 0 ∧
    (togglePlay (updateProgress (togglePlay (mkReady 1) 0) 2) 5).currentTime = 0 ∧
    (togglePlay (updateProgress (togglePlay (mkReady 1) 0) 2) 5).progress = 0 ∧
    (togglePlay (updateProgress (togglePlay (mkReady 1) 0) 2) 5).startTime = 5 ∧
    (togglePlay (updateProgress (togglePlay (mkReady 1) 0) 2) 5).isPlaying = true ∧
    (togglePlay (updateProgress (togglePlay (mkReady 1) 0) 2) 5).endedCount
        = (updateProgress (togglePlay (mkReady 1) 0) 2).endedCount ∧
    (∀ t2, updateProgress (updateProgress (togglePlay (mkReady 1) 0) 2) t2
        = updateProgress (togglePlay (mkReady 1) 0) 2) :=
  C4_replay_rewinds (updateProgress (togglePlay (mkReady 1) 0) 2) 5
    (by simp [updateProgress, togglePlay, mkReady, stopAudio])
    (by simp [updateProgress, togglePlay, mkReady, stopAudio])
    (by simp [updateProgress, togglePlay, mkReady, stopAudio])
    (by simp [updateProgress, togglePlay, mkReady, stopAudio])

/-- Claim C2: along any chronologically ordered run of toggle, restart and
poll events from a state satisfying the session invariant (in particular from
any freshly decoded session `mkReady d` with `0 < d`, and from the failed
state `mkFailed`), the observable state keeps `0 ≤ currentTime ≤ duration`,
playing implies ready, the published progress equals
`currentTime / duration * 100`, and progress is 0 whenever the duration is 0
(unknown). -/
theorem C2_observable_invariant (s0 : Session) (t0 : ℚ) (evs : List (Ev × ℚ))
    (hinv : Inv s0 t0) (hch : Chrono t0 evs) :
    0 ≤ (runEvents s0 evs).currentTime ∧
    (runEvents s0 evs).currentTime ≤ (runEvents s0 evs).duration ∧
    ((runEvents s0 evs).isPlaying = true → (runEvents s0 evs).isReady = true) ∧
    (runEvents s0 evs).progress =
      (runEvents s0 evs).currentTime / (runEvents s0 evs).duration * 100 ∧
    ((runEvents s0 evs).duration = 0 → (runEvents s0 evs).progress = 0) := by
  obtain ⟨t1, h1, h2, h3, h4, h5, h6, h7, h8⟩ := inv_run evs s0 t0 hinv hch
  refine ⟨h1, h2, h3, h8, fun hd => ?_⟩
  rw [h8, hd, div_zero, zero_mul]

theorem C2_observable_invariant_witness :
    0 ≤ (runEvents (mkReady 1) [(Ev.toggle, 0), (Ev.poll, 1/2)]).currentTime ∧
    (runEvents (mkReady 1) [(Ev.toggle, 0), (Ev.poll, 1/2)]).currentTime ≤
      (runEvents (mkReady 1) [(Ev.toggle, 0), (Ev.poll, 1/2)]).duration ∧
    ((runEvents (mkReady 1) [(Ev.toggle, 0), (Ev.poll, 1/2)]).isPlaying = true →
      (runEvents (mkReady 1) [(Ev.toggle, 0), (Ev.poll, 1/2)]).isReady = true) ∧
    (runEvents (mkReady 1) [(Ev.toggle, 0), (Ev.poll, 1/2)]).progress =
      (runEvents (mkReady 1) [(Ev.toggle, 0), (Ev.poll, 1/2)]).currentTime /
        (runEvents (mkReady 1) [(Ev.toggle, 0), (Ev.poll, 1/2)]).duration * 100 ∧
    ((runEvents (mkReady 1) [(Ev.toggle, 0), (Ev.poll, 1/2)]).duration = 0 →
      (runEvents (mkReady 1) [(Ev.toggle, 0), (Ev.poll, 1/2)]).progress = 0) :=
  C2_observable_invariant (mkReady 1) 0 [(Ev.toggle, 0), (Ev.poll, 1/2)]
    (inv_mkReady 1 one_pos 0) (by norm_num [Chrono])

/-- Claim C6: while playing, successive progress polls at non-decreasing audio
clocks never report a decreasing `currentTime`: if the first poll leaves the
session playing, the second poll reports a value at least as large. -/
theorem C6_monotone_polls (s : Session) (t1 t2 : ℚ)
    (hC : s.hasContext = true) (hP : s.isPlaying = true) (h12 : t1 ≤ t2)
    (h1 : (updateProgress s t1).isPlaying = true) :
    (updateProgress s t1).currentTime ≤
      (updateProgress (updateProgress s t1) t2).currentTime := by
  by_cases he : s.duration ≤ t1 - s.startTime + s.pauseTime
  · rw [updateProgress_ended s t1 hC hP he] at h1
    exact absurd h1 (by simp)
  · rw [updateProgress_running s t1 hC hP he]
    by_cases he2 : s.duration ≤ t2 - s.startTime + s.pauseTime
    · rw [updateProgress_ended
        { s with
          currentTime := t1 - s.startTime + s.pauseTime
          progress := (t1 - s.startTime + s.pauseTime) / s.duration * 100 }
        t2 hC hP he2]
      show t1 - s.startTime + s.pauseTime ≤ s.duration
      have := not_le.mp he
      linarith
    · rw [updateProgress_running
        { s with
          currentTime := t1 - s.startTime + s.pauseTime
          progress := (t1 - s.startTime + s.pauseTime) / s.duration * 100 }
        t2 hC hP he2]
      show t1 - s.startTime + s.pauseTime ≤ t2 - s.startTime + s.pauseTime
      linarith

theorem C6_monotone_polls_witness :
    (updateProgress (togglePlay (mkReady 10) 0) 1).currentTime ≤
      (updateProgress (updateProgress (togglePlay (mkReady 10) 0) 1) 2).currentTime :=
  C6_monotone_polls (togglePlay (mkReady 10) 0) 1 2
    (by simp [togglePlay, mkReady, stopAudio])
    (by simp [togglePlay, mkReady, stopAudio])
    (by norm_num)
    (by simp [updateProgress, togglePlay, mkReady, stopAudio])

/-- Claim C7: pausing twice in a row has the same observable effect as pausing
once, on every component of the state: the second pause is a no-op; and
stopping an already-stopped node is harmless (`stopAudio` is idempotent). -/
theorem C7_pause_idempotent (s : Session) (t1 t2 : ℚ) :
    pause (pause s t1) t2 = pause s t1 ∧ stopAudio (stopAudio s) = stopAudio s := by
  refine ⟨?_, rfl⟩
  unfold pause
  cases hP : s.isPlaying with
  | false => simp [hP]
  | true =>
    simp only [hP, if_true]
    cases hC : s.hasContext with
    | false =>
      rw [togglePlay_skip s t1 (Or.inl hC)]
      simp only [hP, if_true]
      exact togglePlay_skip s t2 (Or.inl hC)
    | true =>
      cases hB : s.hasBuffer with
      | false =>
        rw [togglePlay_skip s t1 (Or.inr hB)]
        simp only [hP, if_true]
        exact togglePlay_skip s t2 (Or.inr hB)
      | true =>
        rw [togglePlay_pause s t1 hC hB hP]
        simp

/-- Claim C8: invoking play before the session is ready (no decoded buffer) is
a silent no-op: the guard in `togglePlay` returns without touching any state,
and no error is possible. -/
theorem C8_play_before_ready (s : Session) (t : ℚ) (h : s.hasBuffer = false) :
    togglePlay s t = s :=
  togglePlay_skip s t (Or.inr h)

theorem C8_play_before_ready_witness : togglePlay mkFailed 0 = mkFailed :=
  C8_play_before_ready mkFailed 0 rfl

theorem pollTrace_endedCount : ∀ (ts : List ℚ) (s : Session) (k : ℕ),
    pollTrace { s with endedCount := k } ts = pollTrace s ts
  | [], _, _ => rfl
  | t :: ts, s, k => by
    simp only [pollTrace]
    rcases Bool.eq_false_or_eq_true s.hasContext with hC | hC
    · rcases Bool.eq_false_or_eq_true s.isPlaying with hP | hP
      · by_cases he : s.duration ≤ t - s.startTime + s.pauseTime
        · rw [updateProgress_ended { s with endedCount := k } t hC hP he,
              updateProgress_ended s t hC hP he]
          exact congrArg (List.cons s.duration)
            (pollTrace_endedCount ts
              { s with
                isPlaying := false
                progress := 100
                currentTime := s.duration
                pauseTime := 0
                sourceNode := false
                endedCount := s.endedCount + 1 }
              (k + 1))
        · rw [updateProgress_running { s with endedCount := k } t hC hP he,
              updateProgress_running s t hC hP he]
          exact congrArg (List.cons (t - s.startTime + s.pauseTime))
            (pollTrace_endedCount ts
              { s with
                currentTime := t - s.startTime + s.pauseTime
                progress := (t - s.startTime + s.pauseTime) / s.duration * 100 }
              k)
      · rw [updateProgress_skip { s with endedCount := k } t (Or.inr hP),
            updateProgress_skip s t (Or.inr hP)]
        exact congrArg (List.cons s.currentTime) (pollTrace_endedCount ts s k)
    · rw [updateProgress_skip { s with endedCount := k } t (Or.inl hC),
          updateProgress_skip s t (Or.inl hC)]
      exact congrArg (List.cons s.currentTime) (pollTrace_endedCount ts s k)

/-- Claim C5: restarting any ready session on a buffer of duration `d` and
then playing at clock `t` reproduces exactly the `currentTime` trajectory of
the first play of a fresh session (`mkReady d`) at the same clock, over every
sequence of subsequent progress-poll instants. -/
theorem C5_restart_play_fresh (s : Session) (d t : ℚ) (ts : List ℚ)
    (hC : s.hasContext = true) (hB : s.hasBuffer = true) (hR : s.isReady = true)
    (hd : s.duration = d) (hpos : 0 < d) :
    pollTrace (togglePlay (handleRestart s) t) ts =
      pollTrace (togglePlay (mkReady d) t) ts := by
  have hend1 : ¬ (handleRestart s).duration ≤ (handleRestart s).currentTime := by
    show ¬ s.duration ≤ (0 : ℚ)
    rw [hd]
    exact not_le.mpr hpos
  have hend2 : ¬ (mkReady d).duration ≤ (mkReady d).currentTime := by
    show ¬ d ≤ (0 : ℚ)
    exact not_le.mpr hpos
  have eA := togglePlay_play (handleRestart s) t hC hB rfl hend1
  have eB := togglePlay_play (mkReady d) t rfl rfl rfl hend2
  have hAB : togglePlay (handleRestart s) t =
      { togglePlay (mkReady d) t with endedCount := s.endedCount } := by
    rw [eA, eB]
    simp [handleRestart, stopAudio, mkReady, hC, hB, hR, hd]
  rw [hAB]
  exact pollTrace_endedCount ts (togglePlay (mkReady d) t) s.endedCount

theorem C5_restart_play_fresh_witness :
    pollTrace
        (togglePlay (handleRestart (updateProgress (togglePlay (mkReady 2) 0) 1)) 5)
        [6, 8] =
      pollTrace (togglePlay (mkReady 2) 5) [6, 8] :=
  C5_restart_play_fresh (updateProgress (togglePlay (mkReady 2) 0) 1) 2 5 [6, 8]
    (by simp [updateProgress, togglePlay, mkReady, stopAudio])
    (by simp [updateProgress, togglePlay, mkReady, stopAudio])
    (by simp [updateProgress, togglePlay, mkReady, stopAudio])
    (by simp [updateProgress, togglePlay, mkReady, stopAudio])
    (by norm_num)

theorem pcmSamples_length : ∀ bytes : List ℕ,
    (pcmSamples bytes).length = bytes.length / 2
  | [] => rfl
  | [_] => by simp [pcmSamples]
  | _ :: _ :: rest => by
    simp only [pcmSamples, List.length_cons]
    rw [pcmSamples_length rest]
    omega

theorem toSigned16_range (v : ℕ) (hv : v < 65536) :
    -32768 ≤ toSigned16 v ∧ toSigned16 v ≤ 32767 := by
  unfold toSigned16
  split <;> omega

theorem pcmSamples_bounds : ∀ (bytes : List ℕ), (∀ b ∈ bytes, b < 256) →
    ∀ x ∈ pcmSamples bytes, -1 ≤ x ∧ x ≤ 1
  | [], _, x, hx => by simp [pcmSamples] at hx
  | [b], _, x, hx => by simp [pcmSamples] at hx
  | lo :: hi :: rest, hb, x, hx => by
    simp only [pcmSamples, List.mem_cons] at hx
    rcases hx with hx | hx
    · subst hx
      have hlo : lo < 256 := hb lo (by simp)
      have hhi : hi < 256 := hb hi (by simp)
      obtain ⟨h1, h2⟩ := toSigned16_range (lo + 256 * hi) (by omega)
      have h1q : (-32768 : ℚ) ≤ ((toSigned16 (lo + 256 * hi) : ℤ) : ℚ) := by
        exact_mod_cast h1
      have h2q : ((toSigned16 (lo + 256 * hi) : ℤ) : ℚ) ≤ 32767 := by
        exact_mod_cast h2
      constructor
      · rw [le_div_iff₀ (by norm_num : (0 : ℚ) < 32768)]
        linarith
      · rw [div_le_iff₀ (by norm_num : (0 : ℚ) < 32768)]
        linarith
    · exact pcmSamples_bounds rest (fun b hbm => hb b (by simp [hbm])) x hx

theorem pcmSamples_getD : ∀ (bytes : List ℕ) (i : ℕ), i < (pcmSamples bytes).length →
    (pcmSamples bytes).getD i 0 =
      ((toSigned16 (bytes.getD (2 * i) 0 + 256 * bytes.getD (2 * i + 1) 0) : ℤ) : ℚ) / 32768
  | [], i, h => by simp [pcmSamples] at h
  | [b], i, h => by simp [pcmSamples] at h
  | lo :: hi :: rest, 0, h => by simp [pcmSamples]
  | lo :: hi :: rest, i + 1, h => by
    have hlen : i < (pcmSamples rest).length := by
      simp only [pcmSamples, List.length_cons] at h
      omega
    have ih := pcmSamples_getD rest i hlen
    have e1 : (lo :: hi :: rest).getD (2 * (i + 1)) 0 = rest.getD (2 * i) 0 := by
      have h2 : 2 * (i + 1) = 2 * i + 1 + 1 := by ring
      rw [h2, List.getD_cons_succ, List.getD_cons_succ]
    have e2 : (lo :: hi :: rest).getD (2 * (i + 1) + 1) 0 = rest.getD (2 * i + 1) 0 := by
      have h2 : 2 * (i + 1) + 1 = 2 * i + 1 + 1 + 1 := by ring
      rw [h2, List.getD_cons_succ, List.getD_cons_succ]
    rw [e1, e2]
    simp only [pcmSamples, List.getD_cons_succ]
    exact ih

/-- Claim C9: a valid mono 16-bit PCM payload of `2n` decoded bytes yields a
buffer of exactly `n` frames, each frame the little-endian signed 16-bit
sample divided by 32768 and hence within [-1, 1], with duration `n / 24000`
seconds. -/
theorem C9_decode_contract (bytes : List ℕ) (n : ℕ) (hn : 0 < n)
    (hlen : bytes.length = 2 * n) (hbyte : ∀ b ∈ bytes, b < 256) :
    ∃ buf, decodeAudioData bytes = some buf ∧
      buf.samples.length = n ∧
      (∀ i, i < n → buf.samples.getD i 0 =
        ((toSigned16 (bytes.getD (2 * i) 0 + 256 * bytes.getD (2 * i + 1) 0) : ℤ) : ℚ)
          / 32768) ∧
      (∀ x ∈ buf.samples, -1 ≤ x ∧ x ≤ 1) ∧
      buf.duration = (n : ℚ) / 24000 := by
  have hcond : ¬ (bytes.length = 0 ∨ bytes.length % 2 = 1) := by omega
  refine ⟨⟨pcmSamples bytes⟩, ?_, ?_, ?_, pcmSamples_bounds bytes hbyte, ?_⟩
  · unfold decodeAudioData
    rw [if_neg hcond]
  · rw [pcmSamples_length, hlen]
    omega
  · intro i hi
    exact pcmSamples_getD bytes i (by rw [pcmSamples_length, hlen]; omega)
  · show ((pcmSamples bytes).length : ℚ) / sampleRate = (n : ℚ) / 24000
    rw [pcmSamples_length, hlen]
    have h2 : 2 * n / 2 = n := by omega
    rw [h2]
    rfl

theorem C9_decode_contract_witness :
    ∃ buf, decodeAudioData [0, 128] = some buf ∧
      buf.samples.length = 1 ∧
      (∀ i, i < 1 → buf.samples.getD i 0 =
        ((toSigned16 ([0, 128].getD (2 * i) 0 + 256 * [0, 128].getD (2 * i + 1) 0) : ℤ) : ℚ)
          / 32768) ∧
      (∀ x ∈ buf.samples, -1 ≤ x ∧ x ≤ 1) ∧
      buf.duration = ((1 : ℕ) : ℚ) / 24000 :=
  C9_decode_contract [0, 128] 1 (by decide) rfl (by decide)

theorem step_mkFailed (e : Ev) (t : ℚ) : step mkFailed e t = mkFailed := by
  cases e with
  | toggle => exact togglePlay_skip mkFailed t (Or.inr rfl)
  | restart => rfl
  | poll => exact updateProgress_skip mkFailed t (Or.inr rfl)

theorem runEvents_mkFailed : ∀ evs : List (Ev × ℚ), runEvents mkFailed evs = mkFailed
  | [] => rfl
  | (e, t) :: evs => by
    rw [runEvents, step_mkFailed, runEvents_mkFailed evs]

/-- Claim C10: when decode fails, the failure is absorbed at the component
boundary: the session is `mkFailed`, which never becomes ready, renders only
the loading indicator, is left unchanged by every toggle, restart and poll
event, and never fires the completion callback. -/
theorem C10_decode_failure (bytes : List ℕ) (evs : List (Ev × ℚ))
    (h : decodeAudioData bytes = none) :
    initAudio bytes = mkFailed ∧
    runEvents (initAudio bytes) evs = mkFailed ∧
    (runEvents (initAudio bytes) evs).isReady = false ∧
    rendersLoading (runEvents (initAudio bytes) evs) = true ∧
    (runEvents (initAudio bytes) evs).endedCount = 0 := by
  have hi : initAudio bytes = mkFailed := by simp [initAudio, h]
  rw [hi, runEvents_mkFailed]
  exact ⟨rfl, rfl, rfl, rfl, rfl⟩

theorem C10_decode_failure_witness :
    initAudio [0] = mkFailed ∧
    runEvents (initAudio [0]) [(Ev.toggle, 0), (Ev.restart, 1), (Ev.poll, 2)] = mkFailed ∧
    (runEvents (initAudio [0]) [(Ev.toggle, 0), (Ev.restart, 1), (Ev.poll, 2)]).isReady
        = false ∧
    rendersLoading (runEvents (initAudio [0]) [(Ev.toggle, 0), (Ev.restart, 1), (Ev.poll, 2)])
        = true ∧
    (runEvents (initAudio [0]) [(Ev.toggle, 0), (Ev.restart, 1), (Ev.poll, 2)]).endedCount
        = 0 :=
  C10_decode_failure [0] [(Ev.toggle, 0), (Ev.restart, 1), (Ev.poll, 2)] rfl

end AudioPlayer
